import Mathlib

/-!
Verification development for the `metronome` repository.

The definitions below are a shallow embedding of the Rust sources:

* `src/state.rs`        — the tri-state run flag and its `u8` codec;
* `src/ui.rs`           — the operator command handlers (normal and input mode);
* `src/tap_tempo.rs`    — the tap-tempo estimator;
* `src/metronome/mod.rs` — the progressive-ramp and constant-beat schedulers.

Modelling conventions: `f64` tempo values are embedded as `ℚ` (the algorithms
under scrutiny use only field operations on small values); `Instant`s and
`Duration`s are embedded as natural numbers of milliseconds, with
`Instant::duration_since` as truncated subtraction (both saturate at zero);
`u32` quantities are naturals with the saturating `as u32` cast made explicit.
The shared run-state atomic and the tempo mutex are modelled by explicit
state passing: the scheduler receives the sequence of values its successive
`state.load` calls observe, and records the sequence of writes it makes to
the shared tempo.
-/

/-- Run state of the metronome, from `src/state.rs` (`MetronomeState`).
The discriminants are 0, 1, 2 in declaration order. -/
inductive MetronomeState where
  | Running
  | Paused
  | Stopped
deriving DecidableEq, Repr

/-- Decoding of a byte into a run state, from `impl From<u8> for MetronomeState`
in `src/state.rs`: 0, 1, 2 decode to the three states, everything else to
`Stopped`. -/
def stateOfByte (v : Fin 256) : MetronomeState :=
  match v.val with
  | 0 => MetronomeState.Running
  | 1 => MetronomeState.Paused
  | 2 => MetronomeState.Stopped
  | _ => MetronomeState.Stopped

/-- Encoding of a run state as its `u8` discriminant (`state as u8` in
`src/state.rs`). -/
def byteOfState : MetronomeState → Fin 256
  | MetronomeState.Running => 0
  | MetronomeState.Paused => 1
  | MetronomeState.Stopped => 2

/-- Model of `AtomicMetronomeState::load` from `src/state.rs`: the stored byte
is decoded with the total `From<u8>` conversion. -/
def loadState (cell : Fin 256) : MetronomeState :=
  stateOfByte cell

/-- The pause/resume toggle, from the space-key arm of
`AppState::handle_normal_mode` in `src/ui.rs`. -/
def toggleState : MetronomeState → MetronomeState
  | MetronomeState.Running => MetronomeState.Paused
  | MetronomeState.Paused => MetronomeState.Running
  | MetronomeState.Stopped => MetronomeState.Stopped

/-- The stop command, from the q-key arm of `AppState::handle_normal_mode` in
`src/ui.rs`: it stores `Stopped` unconditionally. -/
def stopState (_ : MetronomeState) : MetronomeState :=
  MetronomeState.Stopped

/-- The two commands that write the shared run state. -/
inductive RunCommand where
  | toggle
  | stop
deriving DecidableEq

/-- Effect of a run-state command on the shared run state. -/
def applyRunCommand : RunCommand → MetronomeState → MetronomeState
  | RunCommand.toggle, s => toggleState s
  | RunCommand.stop, s => stopState s

/-- Maximum number of remembered taps, `MAX_TAP_HISTORY` in
`src/tap_tempo.rs`. -/
def maxTapHistory : ℕ := 5

/-- Session timeout in milliseconds, `TAP_TIMEOUT_MS` in `src/tap_tempo.rs`. -/
def tapTimeoutMs : ℕ := 5000

/-- Lower bound of a plausible estimate, `MIN_BPM` in `src/tap_tempo.rs`. -/
def minBpm : ℚ := 5

/-- Upper bound of a plausible estimate, `MAX_BPM` in `src/tap_tempo.rs`. -/
def maxBpm : ℚ := 300

/-- State of the tap-tempo estimator, from `struct TapTempo` in
`src/tap_tempo.rs`.  Timestamps are in milliseconds; the `tap_timeout`
field is the constant `tapTimeoutMs` and is left implicit. -/
structure TapTempo where
  tap_times : List ℕ
  last_calculated_bpm : Option ℚ
  is_tapping : Bool
deriving DecidableEq, Repr

/-- Model of `TapTempo::new`. -/
def TapTempo.new : TapTempo :=
  { tap_times := [], last_calculated_bpm := none, is_tapping := false }

/-- Model of `TapTempo::calculate_bpm` from `src/tap_tempo.rs`: average the
consecutive inter-tap intervals, convert to bpm as `60000 / average`, and
keep the result only when it lies within `[MIN_BPM, MAX_BPM]`.
(`windows(2)` over the vector is the zip of the list with its tail.) -/
def TapTempo.calculate_bpm (s : TapTempo) : Option ℚ :=
  if s.tap_times.length < 2 then none
  else
    let intervals : List ℕ := (s.tap_times.zip s.tap_times.tail).map (fun p => p.2 - p.1)
    let avg_interval_ms : ℚ := (intervals.sum : ℚ) / (intervals.length : ℚ)
    let bpm : ℚ := 60000 / avg_interval_ms
    if minBpm ≤ bpm ∧ bpm ≤ maxBpm then some bpm else none

/-- First step of `TapTempo::tap`: clear the window when the previous tap is
older than the timeout (`now.duration_since(*last_tap) > self.tap_timeout`).
`Vec::last` is the most recent element, here `getLast?`. -/
def TapTempo.clearIfStale (s : TapTempo) (now : ℕ) : TapTempo :=
  match s.tap_times.getLast? with
  | some last =>
      if tapTimeoutMs < now - last then
        { s with tap_times := [], is_tapping := false }
      else s
  | none => s

/-- Second step of `TapTempo::tap`: `self.tap_times.push(now);
self.is_tapping = true;`. -/
def TapTempo.pushNow (s : TapTempo) (now : ℕ) : TapTempo :=
  { s with tap_times := s.tap_times ++ [now], is_tapping := true }

/-- Third step of `TapTempo::tap`: when the window exceeds
`MAX_TAP_HISTORY`, `self.tap_times.remove(0)` evicts the oldest entry. -/
def TapTempo.trimHistory (s : TapTempo) : TapTempo :=
  if maxTapHistory < s.tap_times.length then
    { s with tap_times := s.tap_times.tail }
  else s

/-- Model of `TapTempo::tap` from `src/tap_tempo.rs`, assembled from the
three mutation steps above.  The argument `now` is the current instant in
milliseconds; the returned pair is the estimate (if any) and the updated
estimator state.  With fewer than 2 remembered taps the function returns
early, leaving the cached estimate untouched; otherwise it stores the
freshly computed `calculate_bpm` result into `last_calculated_bpm`. -/
def TapTempo.tap (s : TapTempo) (now : ℕ) : Option ℚ × TapTempo :=
  let s3 := ((s.clearIfStale now).pushNow now).trimHistory
  if s3.tap_times.length < 2 then (none, s3)
  else (s3.calculate_bpm, { s3 with last_calculated_bpm := s3.calculate_bpm })

/-- Model of `TapTempo::is_tapping` from `src/tap_tempo.rs`, at instant
`now`. -/
def TapTempo.isTappingAt (s : TapTempo) (now : ℕ) : Bool :=
  if s.is_tapping = false then false
  else
    match s.tap_times.getLast? with
    | some last => if tapTimeoutMs < now - last then false else true
    | none => true

/-- Model of `TapTempo::get_tap_count` from `src/tap_tempo.rs`. -/
def TapTempo.get_tap_count (s : TapTempo) (now : ℕ) : ℕ :=
  if s.isTappingAt now then s.tap_times.length else 0

/-- Run a whole tap sequence from a fresh estimator, returning the result of
the last tap together with the final estimator state. -/
def tapRun (ts : List ℕ) : Option ℚ × TapTempo :=
  ts.foldl (fun acc t => acc.2.tap t) (none, TapTempo.new)

/-- Estimator state after a whole tap sequence from a fresh estimator. -/
def tapFold (ts : List ℕ) : TapTempo :=
  (tapRun ts).2

/-- Ramp configuration, from `struct ProgressiveArgs` in
`src/metronome/mod.rs` (`start_bpm`, `end_bpm`, `duration` in seconds,
`measures` beats per increment). -/
structure ProgressiveArgs where
  start_bpm : ℚ
  end_bpm : ℚ
  duration : ℚ
  measures : ℕ
deriving DecidableEq, Repr

/-- Rust's `f64::round`: round half away from zero. For the nonnegative
arguments produced by a valid ramp configuration this agrees with
Mathlib's round-half-up. -/
def rustRound (x : ℚ) : ℤ :=
  if 0 ≤ x then round x else -round (-x)

/-- Largest value of a `u32`. -/
def u32Max : ℕ := 2 ^ 32 - 1

/-- Total number of ramp beats, from `run_progressive` in
`src/metronome/mod.rs`: `(average_bpm * (duration / 60.0)).round() as u32`,
with the saturating `as u32` cast made explicit. -/
def totalBeats (a : ProgressiveArgs) : ℕ :=
  min (rustRound ((a.start_bpm + a.end_bpm) / 2 * (a.duration / 60))).toNat u32Max

/-- Number of tempo increments, `total_beats / args.measures` (integer
division on `u32`). -/
def numIncrements (a : ProgressiveArgs) : ℕ :=
  totalBeats a / a.measures

/-- Tempo change per increment, from `run_progressive`: zero when there are
no increments. -/
def bpmIncrement (a : ProgressiveArgs) : ℚ :=
  if 0 < numIncrements a then
    (a.end_bpm - a.start_bpm) / (numIncrements a : ℚ)
  else 0

/-- Outcome of the pause spin inside the ramp loop. -/
inductive SpinOutcome where
  | exited
  | stopped
deriving DecidableEq, Repr

/-- Model of the pause spin in `run_progressive`
(`while state.load(..) == Paused { sleep(100ms); if state.load(..) == Stopped
{ return; } }`).  The list holds the values returned by the successive
`state.load` calls of the spin, consumed alternately by the `while`
condition and by the stop check; an exhausted list reads as the state no
longer being `Paused`. -/
def pauseSpin : List MetronomeState → SpinOutcome
  | [] => SpinOutcome.exited
  | c :: rest =>
    if c = MetronomeState.Paused then
      match rest with
      | [] => SpinOutcome.exited
      | c2 :: rest2 =>
        if c2 = MetronomeState.Stopped then SpinOutcome.stopped
        else pauseSpin rest2
    else SpinOutcome.exited

/-- Observable outcome of `run_progressive`: the mid-ramp tempo publications
(pairs of the beat index after which the write happened and the written
value, in order), the number of ticks emitted, and whether the trailing
`*bpm = args.end_bpm` write executed (it is skipped exactly by the
`return` inside the pause spin). -/
structure RampResult where
  events : List (ℕ × ℚ)
  ticks : ℕ
  finalPub : Bool
deriving DecidableEq, Repr

/-- One beat of the `for beat in 0..total_beats` loop of `run_progressive`,
iterated by fuel (the number of remaining beats).  `top b` is the value the
`state.load` at the top of iteration `b` observes, `spin b` the values the
loads of that iteration's pause spin observe.  The beat's tick plays when
the top load sees `Running`; a top load of `Stopped` breaks out of the loop
(and the trailing publish still runs); a `Stopped` seen inside the pause
spin returns from the whole function (skipping the trailing publish).
After the beat, when `(beat + 1) % measures == 0 && (beat + 1) < total_beats`,
the tempo is incremented and published. -/
def rampAux (a : ProgressiveArgs) (top : ℕ → MetronomeState)
    (spin : ℕ → List MetronomeState) : ℕ → ℕ → ℚ → RampResult
  | 0, _, _ => { events := [], ticks := 0, finalPub := true }
  | n + 1, beat, cur =>
    if top beat = MetronomeState.Stopped then
      { events := [], ticks := 0, finalPub := true }
    else
      let t : ℕ := if top beat = MetronomeState.Running then 1 else 0
      match pauseSpin (spin beat) with
      | SpinOutcome.stopped => { events := [], ticks := t, finalPub := false }
      | SpinOutcome.exited =>
        if (beat + 1) % a.measures = 0 ∧ beat + 1 < totalBeats a then
          let cur2 := cur + bpmIncrement a
          let r := rampAux a top spin n (beat + 1) cur2
          { events := (beat, cur2) :: r.events, ticks := t + r.ticks,
            finalPub := r.finalPub }
        else
          let r := rampAux a top spin n (beat + 1) cur
          { events := r.events, ticks := t + r.ticks, finalPub := r.finalPub }

/-- Model of `run_progressive` from `src/metronome/mod.rs`. -/
def runProgressive (a : ProgressiveArgs) (top : ℕ → MetronomeState)
    (spin : ℕ → List MetronomeState) : RampResult :=
  rampAux a top spin (totalBeats a) 0 a.start_bpm

/-- Last value `run_progressive` published to the shared tempo, if any: the
trailing `end_bpm` write when it ran, otherwise the last mid-ramp
publication. -/
def lastPublished (a : ProgressiveArgs) (r : RampResult) : Option ℚ :=
  if r.finalPub then some a.end_bpm else (r.events.map Prod.snd).getLast?

/-- Contents of the shared tempo after `run_progressive`, starting from the
store value `s0` (last write wins). -/
def storeAfter (a : ProgressiveArgs) (r : RampResult) (s0 : ℚ) : ℚ :=
  (lastPublished a r).getD s0

/-- Ticks emitted by the steady loop `run_constant` of
`src/metronome/mod.rs`, cut off after `fuel` iterations.  `loads i` is the
value observed by the `i`-th `state.load` call; each iteration consumes two
loads (the `while` condition and `current_state`). -/
def constantTicks (loads : ℕ → MetronomeState) : ℕ → ℕ → ℕ
  | 0, _ => 0
  | fuel + 1, i =>
    if loads i = MetronomeState.Stopped then 0
    else
      (if loads (i + 1) = MetronomeState.Running then 1 else 0) +
        constantTicks loads fuel (i + 2)

/-- Keys handled by `AppState::handle_normal_mode` in `src/ui.rs`
(upper and lower case collapse onto one arm in the source). -/
inductive NormalKey where
  | keyK
  | keyJ
  | keyQ
  | space
  | keyG
  | keyI
deriving DecidableEq

/-- UI-side application state, from `struct AppState` in `src/ui.rs`. -/
structure AppState where
  current_bpm : ℚ
  state : MetronomeState
  tap_tempo : TapTempo
  input_mode : Bool
  input_buffer : String
deriving Repr

/-- Model of `AppState::handle_normal_mode` from `src/ui.rs`.  `shared` is
the contents of the `bpm_shared` mutex and `runstate` the shared run-state
atomic; both are returned updated alongside the new `AppState`.  `now` is
the instant at which a tap key would be registered. -/
def handle_normal_mode (st : AppState) (key : NormalKey) (shared : ℚ)
    (runstate : MetronomeState) (now : ℕ) : AppState × ℚ × MetronomeState :=
  match key with
  | NormalKey.keyK =>
    let b := shared + 1
    ({ st with current_bpm := b }, b, runstate)
  | NormalKey.keyJ =>
    if 1 < shared then
      let b := shared - 1
      ({ st with current_bpm := b }, b, runstate)
    else (st, shared, runstate)
  | NormalKey.keyQ =>
    ({ st with state := MetronomeState.Stopped }, shared, MetronomeState.Stopped)
  | NormalKey.space =>
    let ns := toggleState runstate
    ({ st with state := ns }, shared, ns)
  | NormalKey.keyG =>
    match st.tap_tempo.tap now with
    | (some bpm, tt) => ({ st with tap_tempo := tt, current_bpm := bpm }, bpm, runstate)
    | (none, tt) => ({ st with tap_tempo := tt }, shared, runstate)
  | NormalKey.keyI =>
    ({ st with input_mode := true, input_buffer := "" }, shared, runstate)

/-- Keys handled by `AppState::handle_input_mode` in `src/ui.rs`. -/
inductive InputKey where
  | enter
  | esc
  | backspace
  | char (c : Char)
deriving DecidableEq

/-- Digit characters accumulate into a natural number, most significant
first (how a decimal literal is read). -/
def digitsToNat (ds : List Char) : ℕ :=
  ds.foldl (fun a c => 10 * a + (c.toNat - 48)) 0

/-- Magnitude part of Rust's `str::parse::<f64>` on the fragment the tempo
entry can need: digits with at most one decimal point and at least one
digit, no exponent, no `inf`/`NaN`.  (The standard-library parser is not
part of this repository; this models its documented grammar on that
fragment, with the exact `ℚ` value of the literal.) -/
def parseMagnitude (cs : List Char) : Option ℚ :=
  let ip := cs.takeWhile Char.isDigit
  let rest := cs.dropWhile Char.isDigit
  match rest with
  | [] => if ip.isEmpty then none else some (digitsToNat ip : ℚ)
  | c :: rest2 =>
    if c = '.' then
      let fp := rest2.takeWhile Char.isDigit
      let rest3 := rest2.dropWhile Char.isDigit
      if rest3.isEmpty then
        if ip.isEmpty && fp.isEmpty then none
        else some ((digitsToNat ip : ℚ) + (digitsToNat fp : ℚ) / (10 : ℚ) ^ fp.length)
      else none
    else none

/-- Model of `str::parse::<f64>` (see `parseMagnitude`): an optional sign
followed by the magnitude. -/
def parseF64 (s : String) : Option ℚ :=
  match s.data with
  | '+' :: rest => parseMagnitude rest
  | '-' :: rest => (parseMagnitude rest).map (fun q => -q)
  | cs => parseMagnitude cs

/-- Model of `AppState::handle_input_mode` from `src/ui.rs`.  `shared` is
the contents of the `bpm_shared` mutex, returned updated. -/
def handle_input_mode (st : AppState) (key : InputKey) (shared : ℚ) :
    AppState × ℚ :=
  match key with
  | InputKey.enter =>
    match parseF64 st.input_buffer with
    | some bpm =>
      if 0 < bpm then
        ({ st with current_bpm := bpm, input_mode := false, input_buffer := "" }, bpm)
      else
        ({ st with input_mode := false, input_buffer := "" }, shared)
    | none => ({ st with input_mode := false, input_buffer := "" }, shared)
  | InputKey.esc => ({ st with input_mode := false, input_buffer := "" }, shared)
  | InputKey.backspace =>
    ({ st with input_buffer := (st.input_buffer.dropRight 1) }, shared)
  | InputKey.char c =>
    if c.isDigit ∨ c = '.' then
      ({ st with input_buffer := st.input_buffer.push c }, shared)
    else (st, shared)

/-- The ramp configuration of the spec's worked scenario:
`start_bpm = 60, end_bpm = 120, duration = 60 s, measures = 4`. -/
def demoArgs : ProgressiveArgs :=
  { start_bpm := 60, end_bpm := 120, duration := 60, measures := 4 }

/-- A concrete UI state used to instantiate the command-handler theorems. -/
def demoApp : AppState :=
  { current_bpm := 60, state := MetronomeState.Running,
    tap_tempo := TapTempo.new, input_mode := false, input_buffer := "" }

/-- A UI state in input mode with the buffer holding the spec's example
entry of a negative number. -/
def demoAppNeg : AppState :=
  { demoApp with input_mode := true, input_buffer := "-5" }

/-- A UI state in input mode with the buffer holding the spec's example
unparseable entry. -/
def demoAppAbc : AppState :=
  { demoApp with input_mode := true, input_buffer := "abc" }

lemma calculate_bpm_range (s : TapTempo) (v : ℚ)
    (h : s.calculate_bpm = some v) : minBpm ≤ v ∧ v ≤ maxBpm := by
  unfold TapTempo.calculate_bpm at h
  split at h
  · exact absurd h (by simp)
  · simp only [] at h
    split at h
    · rename_i hrange
      cases h
      exact hrange
    · exact absurd h (by simp)

lemma tap_result_range (s : TapTempo) (now : ℕ) (v : ℚ)
    (h : (s.tap now).1 = some v) : minBpm ≤ v ∧ v ≤ maxBpm := by
  unfold TapTempo.tap at h
  simp only [] at h
  split at h
  · exact absurd h (by simp)
  · exact calculate_bpm_range _ v h

lemma tap_result_pos (s : TapTempo) (now : ℕ) (v : ℚ)
    (h : (s.tap now).1 = some v) : 0 < v := by
  have hr := tap_result_range s now v h
  have h5 : (0 : ℚ) < minBpm := by norm_num [minBpm]
  exact lt_of_lt_of_le h5 hr.1

set_option maxRecDepth 4096 in
/-- C10: reading the shared run-state flag is total and fail-safe — every
byte decodes to a valid run state, with 0, 1, 2 mapping to Running, Paused,
Stopped and every other byte value mapping to the terminal Stopped state. -/
theorem byte_decode_total :
    (∀ v : Fin 256, loadState v = MetronomeState.Running
      ∨ loadState v = MetronomeState.Paused
      ∨ loadState v = MetronomeState.Stopped)
    ∧ (∀ v : Fin 256, loadState v = MetronomeState.Running ↔ v.val = 0)
    ∧ (∀ v : Fin 256, loadState v = MetronomeState.Paused ↔ v.val = 1)
    ∧ (∀ v : Fin 256,
        loadState v = MetronomeState.Stopped ↔ (v.val = 2 ∨ 3 ≤ v.val)) := by
  refine ⟨?_, ?_, ?_, ?_⟩ <;> decide

/-- C4: the run-state machine — toggle swaps Running and Paused and fixes
Stopped (twice toggling is the identity from Running or Paused), stop sends
every state to Stopped, and neither command leaves Stopped; the space and q
key handlers implement exactly these commands, and no normal-mode key moves
the shared run state out of Stopped. -/
theorem run_state_machine :
    toggleState MetronomeState.Running = MetronomeState.Paused
    ∧ toggleState MetronomeState.Paused = MetronomeState.Running
    ∧ toggleState MetronomeState.Stopped = MetronomeState.Stopped
    ∧ toggleState (toggleState MetronomeState.Running) = MetronomeState.Running
    ∧ toggleState (toggleState MetronomeState.Paused) = MetronomeState.Paused
    ∧ (∀ s, stopState s = MetronomeState.Stopped)
    ∧ stopState MetronomeState.Stopped = MetronomeState.Stopped
    ∧ (∀ c, applyRunCommand c MetronomeState.Stopped = MetronomeState.Stopped)
    ∧ (∀ st sh rs now,
        (handle_normal_mode st NormalKey.space sh rs now).2.2 = toggleState rs)
    ∧ (∀ st sh rs now,
        (handle_normal_mode st NormalKey.keyQ sh rs now).2.2 = stopState rs)
    ∧ (∀ st sh now key,
        (handle_normal_mode st key sh MetronomeState.Stopped now).2.2
          = MetronomeState.Stopped) := by
  refine ⟨rfl, rfl, rfl, rfl, rfl, ?_, rfl, ?_, ?_, ?_, ?_⟩
  · intro s; rfl
  · intro c; cases c <;> rfl
  · intro st sh rs now; rfl
  · intro st sh rs now; rfl
  · intro st sh now key
    cases key <;> try rfl
    · simp only [handle_normal_mode]
      split <;> rfl
    · simp only [handle_normal_mode]
      split <;> rfl

/-- C8 counterexample: at shared tempo 2 the decrease key decrements to
exactly 1 — a decrease occurred, yet the resulting stored tempo is not
greater than 1, and the handler did not refuse even though the result is
`≤ 1`. -/
theorem tempo_decrease_cex :
    (handle_normal_mode demoApp NormalKey.keyJ 2 MetronomeState.Running 0).2.1 = 1
    ∧ ¬ (1 : ℚ) < 1 ∧ (1 : ℚ) ≠ 2 := by
  refine ⟨?_, by norm_num, by norm_num⟩
  norm_num [handle_normal_mode]

/-- C8 (amended): the decrease key decrements the shared tempo by exactly 1
unless the current tempo is `≤ 1` (the guard refuses when the result would
be `≤ 0`, not when it would be `≤ 1`); consequently every decrease keeps
the tempo strictly positive, and positivity is preserved by increase,
decrease, tap-publication and manual entry alike. -/
theorem tempo_guards (st : AppState) (sh : ℚ) (rs : MetronomeState) (now : ℕ) :
    (1 < sh → (handle_normal_mode st NormalKey.keyJ sh rs now).2.1 = sh - 1)
    ∧ (sh ≤ 1 → (handle_normal_mode st NormalKey.keyJ sh rs now).2.1 = sh)
    ∧ (0 < sh → 0 < (handle_normal_mode st NormalKey.keyJ sh rs now).2.1)
    ∧ (0 < sh → 0 < (handle_normal_mode st NormalKey.keyK sh rs now).2.1)
    ∧ (0 < sh → 0 < (handle_normal_mode st NormalKey.keyG sh rs now).2.1)
    ∧ (0 < sh → 0 < (handle_input_mode st InputKey.enter sh).2) := by
  refine ⟨?_, ?_, ?_, ?_, ?_, ?_⟩
  · intro h
    simp only [handle_normal_mode, if_pos h]
  · intro h
    simp only [handle_normal_mode, if_neg (not_lt.mpr h)]
  · intro h
    simp only [handle_normal_mode]
    split
    · show (0 : ℚ) < sh - 1
      rename_i h1
      linarith
    · exact h
  · intro h
    simp only [handle_normal_mode]
    show (0 : ℚ) < sh + 1
    linarith
  · intro h
    rcases htap : st.tap_tempo.tap now with ⟨r, tt⟩
    rcases r with _ | v
    · simp only [handle_normal_mode, htap]
      exact h
    · simp only [handle_normal_mode, htap]
      exact tap_result_pos st.tap_tempo now v (by rw [htap])
  · intro h
    rcases hp : parseF64 st.input_buffer with _ | v
    · simp only [handle_input_mode, hp]
      exact h
    · simp only [handle_input_mode, hp]
      split
      · rename_i hv
        exact hv
      · exact h

/-- C8 witness: the amended properties at tempo 2 — the decrease key yields
exactly 1, which remains strictly positive. -/
theorem tempo_guards_witness :
    (handle_normal_mode demoApp NormalKey.keyJ 2 MetronomeState.Running 0).2.1 = 2 - 1
    ∧ 0 < (handle_normal_mode demoApp NormalKey.keyJ 2 MetronomeState.Running 0).2.1 := by
  have h := tempo_guards demoApp 2 MetronomeState.Running 0
  exact ⟨h.1 (by norm_num), h.2.2.1 (by norm_num)⟩

/-- C9: confirming a manual tempo entry writes the parsed value to the
shared tempo exactly when the buffer parses as a number strictly greater
than zero; otherwise the entry is silently discarded and the shared and
displayed tempos are unchanged; `"-5"` parses negative and `"abc"` does not
parse, so both leave the tempo unchanged. -/
theorem manual_entry_guard :
    (∀ st (sh : ℚ), parseF64 st.input_buffer = none →
        (handle_input_mode st InputKey.enter sh).2 = sh
        ∧ ((handle_input_mode st InputKey.enter sh).1).current_bpm = st.current_bpm)
    ∧ (∀ st (sh : ℚ) v, parseF64 st.input_buffer = some v → v ≤ 0 →
        (handle_input_mode st InputKey.enter sh).2 = sh
        ∧ ((handle_input_mode st InputKey.enter sh).1).current_bpm = st.current_bpm)
    ∧ (∀ st (sh : ℚ) v, parseF64 st.input_buffer = some v → 0 < v →
        (handle_input_mode st InputKey.enter sh).2 = v
        ∧ ((handle_input_mode st InputKey.enter sh).1).current_bpm = v)
    ∧ parseF64 "-5" = some (-5)
    ∧ parseF64 "abc" = none := by
  refine ⟨?_, ?_, ?_, by decide, by decide⟩
  · intro st sh h
    simp [handle_input_mode, h]
  · intro st sh v h hv
    simp [handle_input_mode, h, not_lt.mpr hv]
  · intro st sh v h hv
    simp [handle_input_mode, h, hv]

/-- C9 witness: entering `"-5"` (and `"abc"`) at shared tempo 100 leaves the
shared tempo at 100 and the displayed tempo at its prior value. -/
theorem manual_entry_guard_witness :
    ((handle_input_mode demoAppNeg InputKey.enter 100).2 = 100
      ∧ ((handle_input_mode demoAppNeg InputKey.enter 100).1).current_bpm = 60)
    ∧ ((handle_input_mode demoAppAbc InputKey.enter 100).2 = 100
      ∧ ((handle_input_mode demoAppAbc InputKey.enter 100).1).current_bpm = 60) := by
  constructor
  · have h := manual_entry_guard.2.1 demoAppNeg 100 (-5) (by decide) (by norm_num)
    exact ⟨h.1, h.2⟩
  · have h := manual_entry_guard.1 demoAppAbc 100 (by decide)
    exact ⟨h.1, h.2⟩

lemma tap_snd_tap_times (s : TapTempo) (now : ℕ) :
    ((s.tap now).2).tap_times
      = (((s.clearIfStale now).pushNow now).trimHistory).tap_times := by
  simp only [TapTempo.tap]
  split <;> rfl

lemma calculate_bpm_of_two_le (t : TapTempo) (h : 2 ≤ t.tap_times.length) :
    t.calculate_bpm =
      (let ivs : List ℕ := (t.tap_times.zip t.tap_times.tail).map (fun p => p.2 - p.1)
       let q : ℚ := 60000 / ((ivs.sum : ℚ) / (ivs.length : ℚ))
       if 5 ≤ q ∧ q ≤ 300 then some q else none) := by
  unfold TapTempo.calculate_bpm
  rw [if_neg (not_lt.mpr h)]
  rfl

lemma clearIfStale_times (s : TapTempo) (now : ℕ) :
    (s.clearIfStale now).tap_times = [] ∨ (s.clearIfStale now).tap_times = s.tap_times := by
  unfold TapTempo.clearIfStale
  split
  · split
    · exact Or.inl rfl
    · exact Or.inr rfl
  · exact Or.inr rfl

lemma clearIfStale_cache (s : TapTempo) (now : ℕ) :
    (s.clearIfStale now).last_calculated_bpm = s.last_calculated_bpm := by
  unfold TapTempo.clearIfStale
  split
  · split <;> rfl
  · rfl

lemma trimHistory_cache (s : TapTempo) :
    s.trimHistory.last_calculated_bpm = s.last_calculated_bpm := by
  unfold TapTempo.trimHistory
  split <;> rfl

lemma tap_s3_cache (s : TapTempo) (now : ℕ) :
    ((((s.clearIfStale now).pushNow now).trimHistory)).last_calculated_bpm
      = s.last_calculated_bpm := by
  rw [trimHistory_cache]
  exact clearIfStale_cache s now

lemma tap_window_le (s : TapTempo) (now : ℕ) (h : s.tap_times.length ≤ 5) :
    ((s.tap now).2).tap_times.length ≤ 5 := by
  rw [tap_snd_tap_times]
  have hlen : (s.clearIfStale now).tap_times.length ≤ 5 := by
    rcases clearIfStale_times s now with h0 | he
    · simp [h0]
    · rw [he]; exact h
  unfold TapTempo.trimHistory TapTempo.pushNow
  simp only [maxTapHistory, List.length_append, List.length_cons, List.length_nil]
  split
  · simp only [List.length_tail, List.length_append, List.length_singleton]
    omega
  · rename_i h5
    simp only [List.length_append, List.length_singleton] at h5 ⊢
    omega

lemma tap_fifo (s : TapTempo) (now last : ℕ)
    (h1 : s.tap_times.getLast? = some last) (h2 : now - last ≤ tapTimeoutMs)
    (h3 : s.tap_times.length = 5) :
    ((s.tap now).2).tap_times = s.tap_times.tail ++ [now] := by
  rw [tap_snd_tap_times]
  have hclear : s.clearIfStale now = s := by
    unfold TapTempo.clearIfStale
    rw [h1]
    exact if_neg (not_lt.mpr h2)
  rw [hclear]
  unfold TapTempo.pushNow TapTempo.trimHistory
  rw [if_pos (by simp [maxTapHistory, h3])]
  rcases hts : s.tap_times with _ | ⟨a, l⟩
  · rw [hts] at h3; simp at h3
  · simp

lemma tap_session_reset (s : TapTempo) (now last : ℕ)
    (h1 : s.tap_times.getLast? = some last) (h2 : tapTimeoutMs < now - last) :
    ((s.tap now).2).tap_times = [now]
    ∧ ((s.tap now).2).get_tap_count now = 1 := by
  have hclear : s.clearIfStale now
      = { s with tap_times := [], is_tapping := false } := by
    unfold TapTempo.clearIfStale
    rw [h1]
    exact if_pos h2
  have hs3 : (((s.clearIfStale now).pushNow now).trimHistory)
      = { s with tap_times := [now], is_tapping := true } := by
    rw [hclear]
    unfold TapTempo.pushNow TapTempo.trimHistory
    simp [maxTapHistory]
  have htap : (s.tap now).2 = { s with tap_times := [now], is_tapping := true } := by
    unfold TapTempo.tap
    simp only [hs3]
    rw [if_pos (by simp)]
  rw [htap]
  refine ⟨rfl, ?_⟩
  unfold TapTempo.get_tap_count TapTempo.isTappingAt
  simp [Nat.sub_self, tapTimeoutMs]

lemma tapRun_window_le (ts : List ℕ) :
    ∀ acc : Option ℚ × TapTempo, acc.2.tap_times.length ≤ 5 →
      ((ts.foldl (fun a t => a.2.tap t) acc).2).tap_times.length ≤ 5 := by
  induction ts with
  | nil => intro acc h; exact h
  | cons t ts ih =>
    intro acc h
    exact ih (acc.2.tap t) (tap_window_le acc.2 t h)

/-- C6: the tap window never exceeds 5 timestamps (with FIFO eviction of the
oldest when a push would overflow), a tap arriving more than 5000 ms after
the previous one clears the window before the push so the post-reset count
is 1, and `get_tap_count` returns the window size exactly when the
estimator is still within an active tapping session. -/
theorem tap_window_invariants :
    (∀ ts : List ℕ, (tapFold ts).tap_times.length ≤ 5)
    ∧ (∀ (s : TapTempo) (now : ℕ), s.tap_times.length ≤ 5 →
        ((s.tap now).2).tap_times.length ≤ 5)
    ∧ (∀ (s : TapTempo) (now last : ℕ), s.tap_times.getLast? = some last →
        now - last ≤ 5000 → s.tap_times.length = 5 →
        ((s.tap now).2).tap_times = s.tap_times.tail ++ [now])
    ∧ (∀ (s : TapTempo) (now last : ℕ), s.tap_times.getLast? = some last →
        5000 < now - last →
        ((s.tap now).2).tap_times = [now]
        ∧ ((s.tap now).2).get_tap_count now = 1)
    ∧ (∀ (s : TapTempo) (now : ℕ), s.get_tap_count now
        = if s.isTappingAt now then s.tap_times.length else 0) := by
  refine ⟨?_, tap_window_le, tap_fifo, tap_session_reset, fun s now => rfl⟩
  intro ts
  exact tapRun_window_le ts (none, TapTempo.new) (by simp [TapTempo.new])

/-- C6 witness: a full window `[0, 100, 200, 300, 400]` tapped again at 450
evicts the oldest timestamp FIFO-style, and a tap 6000 ms after the last
one resets the session to a single timestamp with tap count 1. -/
theorem tap_window_invariants_witness :
    ((TapTempo.tap
        { tap_times := [0, 100, 200, 300, 400], last_calculated_bpm := none,
          is_tapping := true } 450).2).tap_times
      = [0, 100, 200, 300, 400].tail ++ [450]
    ∧ ((TapTempo.tap
        { tap_times := [0, 100, 200, 300, 400], last_calculated_bpm := none,
          is_tapping := true } 6400).2).tap_times = [6400]
    ∧ ((TapTempo.tap
        { tap_times := [0, 100, 200, 300, 400], last_calculated_bpm := none,
          is_tapping := true } 6400).2).get_tap_count 6400 = 1 := by
  refine ⟨?_, ?_, ?_⟩
  · exact tap_window_invariants.2.2.1
      { tap_times := [0, 100, 200, 300, 400], last_calculated_bpm := none,
        is_tapping := true } 450 400 rfl (by norm_num) rfl
  · exact (tap_window_invariants.2.2.2.1
      { tap_times := [0, 100, 200, 300, 400], last_calculated_bpm := none,
        is_tapping := true } 6400 400 rfl (by norm_num)).1
  · exact (tap_window_invariants.2.2.2.1
      { tap_times := [0, 100, 200, 300, 400], last_calculated_bpm := none,
        is_tapping := true } 6400 400 rfl (by norm_num)).2

/-- A mid-session estimator state: three taps 500 ms apart already
registered. -/
def tapDemoState : TapTempo :=
  { tap_times := [0, 500, 1000], last_calculated_bpm := some 120,
    is_tapping := true }

/-- C5: a tap leaving fewer than 2 timestamps in the window yields no
estimate; otherwise the estimate is 60000 divided by the average inter-tap
interval in milliseconds of the window, returned exactly when it lies in
[5, 300] bpm.  Four taps 500 ms apart give exactly 120 bpm, a single tap
gives no estimate, and 50 ms taps (1200 bpm) give no estimate. -/
theorem tap_estimate_formula :
    (∀ (s : TapTempo) (now : ℕ), ((s.tap now).2).tap_times.length < 2 →
        (s.tap now).1 = none)
    ∧ (∀ (s : TapTempo) (now : ℕ), 2 ≤ ((s.tap now).2).tap_times.length →
        (s.tap now).1 =
          (let ts := ((s.tap now).2).tap_times
           let ivs : List ℕ := (ts.zip ts.tail).map (fun p => p.2 - p.1)
           let q : ℚ := 60000 / ((ivs.sum : ℚ) / (ivs.length : ℚ))
           if 5 ≤ q ∧ q ≤ 300 then some q else none))
    ∧ (tapRun [0, 500, 1000, 1500]).1 = some 120
    ∧ (tapRun [0]).1 = none
    ∧ (tapRun [0, 50, 100]).1 = none := by
  refine ⟨?_, ?_, ?_, by decide, ?_⟩
  · intro s now h
    rw [tap_snd_tap_times] at h
    simp only [TapTempo.tap]
    rw [if_pos h]
  · intro s now h
    rw [tap_snd_tap_times] at h
    simp only [TapTempo.tap]
    rw [if_neg (not_lt.mpr h)]
    exact calculate_bpm_of_two_le _ h
  · norm_num [tapRun, TapTempo.tap, TapTempo.clearIfStale, TapTempo.pushNow,
      TapTempo.trimHistory, TapTempo.new, TapTempo.calculate_bpm,
      maxTapHistory, tapTimeoutMs, minBpm, maxBpm]
  · norm_num [tapRun, TapTempo.tap, TapTempo.clearIfStale, TapTempo.pushNow,
      TapTempo.trimHistory, TapTempo.new, TapTempo.calculate_bpm,
      maxTapHistory, tapTimeoutMs, minBpm, maxBpm]

/-- C5 witness: at the three-tap state a fourth tap at 1500 ms has a
four-element window and returns the in-range estimate of exactly 120 bpm;
a first tap on a fresh estimator leaves one timestamp and no estimate. -/
theorem tap_estimate_formula_witness :
    (2 ≤ ((TapTempo.tap tapDemoState 1500).2).tap_times.length
      ∧ (TapTempo.tap tapDemoState 1500).1 = some 120)
    ∧ (((TapTempo.tap TapTempo.new 0).2).tap_times.length < 2
      ∧ (TapTempo.tap TapTempo.new 0).1 = none) := by
  constructor
  · have h2 : 2 ≤ ((TapTempo.tap tapDemoState 1500).2).tap_times.length := by decide
    refine ⟨h2, ?_⟩
    rw [tap_estimate_formula.2.1 tapDemoState 1500 h2]
    norm_num [TapTempo.tap, TapTempo.clearIfStale, TapTempo.pushNow,
      TapTempo.trimHistory, TapTempo.calculate_bpm, tapDemoState,
      maxTapHistory, tapTimeoutMs, minBpm, maxBpm]
  · have h1 : ((TapTempo.tap TapTempo.new 0).2).tap_times.length < 2 := by decide
    exact ⟨h1, tap_estimate_formula.1 TapTempo.new 0 h1⟩

/-- The estimator state reached by the tap sequence 0, 500, 1000, 1500,
10000 ms: the first session cached an estimate of 120 bpm, then the tap at
10000 ms (8500 ms after the previous one) reset the window to a single
timestamp while leaving the cache at 120. -/
def tapCacheDemo : TapTempo := tapFold [0, 500, 1000, 1500, 10000]

/-- C7 counterexample: from `tapCacheDemo` (cache holds 120 bpm), a tap
50 ms later computes the out-of-range guess 1200 bpm; `tap` returns no
estimate, but the previously cached estimate is overwritten with `none`
rather than left as it was — refuting the claim that an out-of-range guess
leaves the cached last estimate unchanged. -/
theorem tap_cache_overwrite_cex :
    tapCacheDemo.last_calculated_bpm = some 120
    ∧ (TapTempo.tap tapCacheDemo 10050).1 = none
    ∧ ((TapTempo.tap tapCacheDemo 10050).2).last_calculated_bpm = none := by
  refine ⟨?_, ?_, ?_⟩ <;>
    norm_num [tapCacheDemo, tapFold, tapRun, TapTempo.tap, TapTempo.clearIfStale,
      TapTempo.pushNow, TapTempo.trimHistory, TapTempo.new, TapTempo.calculate_bpm,
      maxTapHistory, tapTimeoutMs, minBpm, maxBpm]

/-- C7 (amended): a returned estimate always lies within [5, 300] bpm; once
the window holds at least 2 timestamps the cache is overwritten with the
freshly computed result — the value itself when in range, `none` when the
guess was out of range (the prior cached estimate is not preserved); with
fewer than 2 timestamps the cache is untouched; and a `none` result is
never written to the shared tempo store by the tap key handler. -/
theorem tap_cache_policy :
    (∀ (s : TapTempo) (now : ℕ) (v : ℚ), (s.tap now).1 = some v →
        minBpm ≤ v ∧ v ≤ maxBpm)
    ∧ (∀ (s : TapTempo) (now : ℕ), 2 ≤ ((s.tap now).2).tap_times.length →
        ((s.tap now).2).last_calculated_bpm = (s.tap now).1)
    ∧ (∀ (s : TapTempo) (now : ℕ), ((s.tap now).2).tap_times.length < 2 →
        ((s.tap now).2).last_calculated_bpm = s.last_calculated_bpm)
    ∧ (∀ (st : AppState) (sh : ℚ) (rs : MetronomeState) (now : ℕ),
        (st.tap_tempo.tap now).1 = none →
        (handle_normal_mode st NormalKey.keyG sh rs now).2.1 = sh) := by
  refine ⟨tap_result_range, ?_, ?_, ?_⟩
  · intro s now h
    rw [tap_snd_tap_times] at h
    simp only [TapTempo.tap]
    rw [if_neg (not_lt.mpr h)]
  · intro s now h
    rw [tap_snd_tap_times] at h
    simp only [TapTempo.tap]
    rw [if_pos h]
    exact tap_s3_cache s now
  · intro st sh rs now h
    rcases htap : st.tap_tempo.tap now with ⟨r, tt⟩
    rw [htap] at h
    simp only at h
    subst h
    simp only [handle_normal_mode, htap]

/-- C7 witness: a first tap on a fresh estimator returns no estimate and
leaves the (empty) cache untouched, and the tap key handler leaves the
shared tempo at 77. -/
theorem tap_cache_policy_witness :
    (((TapTempo.tap TapTempo.new 0).2).tap_times.length < 2
      ∧ ((TapTempo.tap TapTempo.new 0).2).last_calculated_bpm
          = TapTempo.new.last_calculated_bpm)
    ∧ (handle_normal_mode demoApp NormalKey.keyG 77 MetronomeState.Running 0).2.1
        = 77 := by
  constructor
  · have h1 : ((TapTempo.tap TapTempo.new 0).2).tap_times.length < 2 := by decide
    exact ⟨h1, tap_cache_policy.2.2.1 TapTempo.new 0 h1⟩
  · exact tap_cache_policy.2.2.2 demoApp 77 MetronomeState.Running 0 (by decide)

lemma rampAux_succ_stopped (a : ProgressiveArgs) (top : ℕ → MetronomeState)
    (spin : ℕ → List MetronomeState) (n beat : ℕ) (cur : ℚ)
    (htop : top beat = MetronomeState.Stopped) :
    rampAux a top spin (n + 1) beat cur
      = { events := [], ticks := 0, finalPub := true } := by
  simp [rampAux, htop]

lemma rampAux_succ_pause_stop (a : ProgressiveArgs) (top : ℕ → MetronomeState)
    (spin : ℕ → List MetronomeState) (n beat : ℕ) (cur : ℚ)
    (htop : top beat = MetronomeState.Running)
    (hspin : pauseSpin (spin beat) = SpinOutcome.stopped) :
    rampAux a top spin (n + 1) beat cur
      = { events := [], ticks := 1, finalPub := false } := by
  simp [rampAux, htop, hspin]

lemma rampAux_succ_running (a : ProgressiveArgs) (top : ℕ → MetronomeState)
    (spin : ℕ → List MetronomeState) (n beat : ℕ) (cur : ℚ)
    (htop : top beat = MetronomeState.Running) (hspin : spin beat = []) :
    rampAux a top spin (n + 1) beat cur =
      if (beat + 1) % a.measures = 0 ∧ beat + 1 < totalBeats a then
        { events := (beat, cur + bpmIncrement a) ::
            (rampAux a top spin n (beat + 1) (cur + bpmIncrement a)).events,
          ticks := 1 + (rampAux a top spin n (beat + 1) (cur + bpmIncrement a)).ticks,
          finalPub := (rampAux a top spin n (beat + 1) (cur + bpmIncrement a)).finalPub }
      else
        { events := (rampAux a top spin n (beat + 1) cur).events,
          ticks := 1 + (rampAux a top spin n (beat + 1) cur).ticks,
          finalPub := (rampAux a top spin n (beat + 1) cur).finalPub } := by
  simp [rampAux, htop, hspin, pauseSpin]

lemma rampAux_running_stats (a : ProgressiveArgs) :
    ∀ (n beat : ℕ) (cur : ℚ),
      (rampAux a (fun _ => MetronomeState.Running) (fun _ => []) n beat cur).ticks = n
      ∧ (rampAux a (fun _ => MetronomeState.Running) (fun _ => []) n beat cur).finalPub
          = true := by
  intro n
  induction n with
  | zero => exact fun beat cur => ⟨rfl, rfl⟩
  | succ n ih =>
    intro beat cur
    rw [rampAux_succ_running a _ _ n beat cur rfl rfl]
    by_cases hc : (beat + 1) % a.measures = 0 ∧ beat + 1 < totalBeats a
    · rw [if_pos hc]
      refine ⟨?_, (ih (beat + 1) (cur + bpmIncrement a)).2⟩
      show 1 + (rampAux a (fun _ => MetronomeState.Running) (fun _ => []) n (beat + 1)
        (cur + bpmIncrement a)).ticks = n + 1
      rw [(ih (beat + 1) (cur + bpmIncrement a)).1]
      omega
    · rw [if_neg hc]
      refine ⟨?_, (ih (beat + 1) cur).2⟩
      show 1 + (rampAux a (fun _ => MetronomeState.Running) (fun _ => []) n (beat + 1)
        cur).ticks = n + 1
      rw [(ih (beat + 1) cur).1]
      omega

lemma rampAux_running_events_nil (a : ProgressiveArgs) :
    ∀ (n beat : ℕ) (cur : ℚ), totalBeats a ≤ beat + 1 →
      (rampAux a (fun _ => MetronomeState.Running) (fun _ => []) n beat cur).events
        = [] := by
  intro n
  induction n with
  | zero => intro beat cur _; rfl
  | succ n ih =>
    intro beat cur h
    rw [rampAux_succ_running a _ _ n beat cur rfl rfl,
      if_neg (fun h' => absurd h'.2 (by omega : ¬ beat + 1 < totalBeats a))]
    show (rampAux a (fun _ => MetronomeState.Running) (fun _ => []) n (beat + 1)
      cur).events = []
    exact ih (beat + 1) cur (by omega)

lemma rampAux_running_events (a : ProgressiveArgs) :
    ∀ (n beat : ℕ),
      (rampAux a (fun _ => MetronomeState.Running) (fun _ => []) n beat
          (a.start_bpm + ((beat / a.measures : ℕ) : ℚ) * bpmIncrement a)).events
        = (List.range' beat n).filterMap (fun b =>
            if (b + 1) % a.measures = 0 ∧ b + 1 < totalBeats a then
              some (b, a.start_bpm + (((b + 1) / a.measures : ℕ) : ℚ) * bpmIncrement a)
            else none) := by
  intro n
  induction n with
  | zero => intro beat; rfl
  | succ n ih =>
    intro beat
    rw [List.range'_succ beat n 1,
      rampAux_succ_running a _ _ n beat _ rfl rfl]
    by_cases hc : (beat + 1) % a.measures = 0 ∧ beat + 1 < totalBeats a
    · have hmpos : 0 < a.measures := by
        rcases Nat.eq_zero_or_pos a.measures with h0 | h
        · exfalso
          rw [h0] at hc
          simp [Nat.mod_zero] at hc
        · exact h
      have hdiv : (beat + 1) / a.measures = beat / a.measures + 1 := by
        rw [Nat.succ_div, if_pos (Nat.dvd_of_mod_eq_zero hc.1)]
      have hcur : a.start_bpm + ((beat / a.measures : ℕ) : ℚ) * bpmIncrement a
            + bpmIncrement a
          = a.start_bpm + (((beat + 1) / a.measures : ℕ) : ℚ) * bpmIncrement a := by
        rw [hdiv]
        push_cast
        ring
      rw [if_pos hc]
      simp only [List.filterMap_cons, if_pos hc]
      show (beat, a.start_bpm + ((beat / a.measures : ℕ) : ℚ) * bpmIncrement a
            + bpmIncrement a)
          :: (rampAux a (fun _ => MetronomeState.Running) (fun _ => []) n (beat + 1)
              (a.start_bpm + ((beat / a.measures : ℕ) : ℚ) * bpmIncrement a
                + bpmIncrement a)).events = _
      rw [hcur, ih (beat + 1)]
    · rw [if_neg hc]
      simp only [List.filterMap_cons, if_neg hc]
      rcases Nat.lt_or_ge (beat + 1) (totalBeats a) with hlt | hge
      · have hmod : (beat + 1) % a.measures ≠ 0 := fun h0 => hc ⟨h0, hlt⟩
        have hdiv : (beat + 1) / a.measures = beat / a.measures := by
          have hnd : ¬ a.measures ∣ beat + 1 := fun hd =>
            hmod (Nat.mod_eq_zero_of_dvd hd)
          rw [Nat.succ_div, if_neg hnd]
          rfl
        show (rampAux a (fun _ => MetronomeState.Running) (fun _ => []) n (beat + 1)
            (a.start_bpm + ((beat / a.measures : ℕ) : ℚ) * bpmIncrement a)).events = _
        rw [show a.start_bpm + ((beat / a.measures : ℕ) : ℚ) * bpmIncrement a
            = a.start_bpm + (((beat + 1) / a.measures : ℕ) : ℚ) * bpmIncrement a from by
          rw [hdiv]]
        exact ih (beat + 1)
      · show (rampAux a (fun _ => MetronomeState.Running) (fun _ => []) n (beat + 1)
            (a.start_bpm + ((beat / a.measures : ℕ) : ℚ) * bpmIncrement a)).events = _
        rw [rampAux_running_events_nil a n (beat + 1) _ (by omega)]
        symm
        refine List.filterMap_eq_nil_iff.mpr ?_
        intro x hx
        have hxge : beat + 1 ≤ x := (List.mem_range'_1.mp hx).1
        exact if_neg (fun h' => absurd h'.2 (by omega))

lemma rampAux_stop_stats (a : ProgressiveArgs) (top : ℕ → MetronomeState)
    (spin : ℕ → List MetronomeState) (b0 : ℕ)
    (htop : top b0 = MetronomeState.Stopped)
    (hrun : ∀ b < b0, top b = MetronomeState.Running)
    (hspin : ∀ b < b0, spin b = []) :
    ∀ (n beat : ℕ) (cur : ℚ), beat ≤ b0 → b0 < beat + n →
      (rampAux a top spin n beat cur).ticks = b0 - beat
      ∧ (rampAux a top spin n beat cur).finalPub = true := by
  intro n
  induction n with
  | zero =>
    intro beat cur h1 h2
    exact absurd h2 (by omega)
  | succ n ih =>
    intro beat cur h1 h2
    by_cases hb : beat = b0
    · subst hb
      rw [rampAux_succ_stopped a top spin n beat cur htop]
      exact ⟨by simp, rfl⟩
    · have hlt : beat < b0 := by omega
      rw [rampAux_succ_running a top spin n beat cur (hrun beat hlt) (hspin beat hlt)]
      by_cases hc : (beat + 1) % a.measures = 0 ∧ beat + 1 < totalBeats a
      · rw [if_pos hc]
        refine ⟨?_, (ih (beat + 1) (cur + bpmIncrement a) (by omega) (by omega)).2⟩
        show 1 + (rampAux a top spin n (beat + 1) (cur + bpmIncrement a)).ticks
          = b0 - beat
        rw [(ih (beat + 1) (cur + bpmIncrement a) (by omega) (by omega)).1]
        omega
      · rw [if_neg hc]
        refine ⟨?_, (ih (beat + 1) cur (by omega) (by omega)).2⟩
        show 1 + (rampAux a top spin n (beat + 1) cur).ticks = b0 - beat
        rw [(ih (beat + 1) cur (by omega) (by omega)).1]
        omega

lemma rampAux_pause_stop_stats (a : ProgressiveArgs) (b0 : ℕ) :
    ∀ (n beat : ℕ) (cur : ℚ), beat ≤ b0 → b0 < beat + n →
      (rampAux a (fun _ => MetronomeState.Running)
          (fun b => if b = b0 then [MetronomeState.Paused, MetronomeState.Stopped]
            else []) n beat cur).ticks = b0 - beat + 1
      ∧ (rampAux a (fun _ => MetronomeState.Running)
          (fun b => if b = b0 then [MetronomeState.Paused, MetronomeState.Stopped]
            else []) n beat cur).finalPub = false := by
  intro n
  induction n with
  | zero =>
    intro beat cur h1 h2
    exact absurd h2 (by omega)
  | succ n ih =>
    intro beat cur h1 h2
    by_cases hb : beat = b0
    · subst hb
      rw [rampAux_succ_pause_stop a _ _ n beat cur rfl (by simp only [if_pos rfl]; decide)]
      exact ⟨by simp, rfl⟩
    · rw [rampAux_succ_running a _ _ n beat cur rfl (by simp [hb])]
      have hlt : beat < b0 := by omega
      by_cases hc : (beat + 1) % a.measures = 0 ∧ beat + 1 < totalBeats a
      · rw [if_pos hc]
        refine ⟨?_, (ih (beat + 1) (cur + bpmIncrement a) (by omega) (by omega)).2⟩
        show 1 + (rampAux a (fun _ => MetronomeState.Running) _ n (beat + 1)
          (cur + bpmIncrement a)).ticks = b0 - beat + 1
        rw [(ih (beat + 1) (cur + bpmIncrement a) (by omega) (by omega)).1]
        omega
      · rw [if_neg hc]
        refine ⟨?_, (ih (beat + 1) cur (by omega) (by omega)).2⟩
        show 1 + (rampAux a (fun _ => MetronomeState.Running) _ n (beat + 1)
          cur).ticks = b0 - beat + 1
        rw [(ih (beat + 1) cur (by omega) (by omega)).1]
        omega

lemma constantTicks_stopped : ∀ (fuel i : ℕ),
    constantTicks (fun _ => MetronomeState.Stopped) fuel i = 0 := by
  intro fuel
  induction fuel with
  | zero => intro i; rfl
  | succ n ih => intro i; simp [constantTicks]

/-- C1: for a valid ramp configuration the plan quantities follow the
documented formulas — `total_beats` is the rounded product of the average
bpm and the duration in minutes (under the `u32` range bound of the cast),
`num_increments` is the floor division by `measures`, `increment_delta` is
the bpm span over the increment count (zero when there are none) — and a
ramp that runs to completion publishes exactly `end_bpm` last; the worked
scenario 60→120 bpm over 60 s with 4-beat measures gives 90 beats, 22
increments, a delta within 0.0001 of 2.7273, and a final published tempo of
exactly 120. -/
theorem ramp_plan_and_final_tempo (a : ProgressiveArgs)
    (hs : 0 < a.start_bpm) (he : 0 < a.end_bpm) (hd : 0 < a.duration)
    (hm : 1 ≤ a.measures)
    (hfit : (rustRound ((a.start_bpm + a.end_bpm) / 2 * (a.duration / 60))).toNat
        ≤ u32Max) :
    (totalBeats a : ℤ) = rustRound ((a.start_bpm + a.end_bpm) / 2 * a.duration / 60)
    ∧ numIncrements a = totalBeats a / a.measures
    ∧ (0 < numIncrements a →
        bpmIncrement a = (a.end_bpm - a.start_bpm) / (numIncrements a : ℚ))
    ∧ (numIncrements a = 0 → bpmIncrement a = 0)
    ∧ lastPublished a
        (runProgressive a (fun _ => MetronomeState.Running) (fun _ => []))
        = some a.end_bpm
    ∧ totalBeats demoArgs = 90
    ∧ numIncrements demoArgs = 22
    ∧ |bpmIncrement demoArgs - 27273 / 10000| < 1 / 10000
    ∧ lastPublished demoArgs
        (runProgressive demoArgs (fun _ => MetronomeState.Running) (fun _ => []))
        = some (120 : ℚ) := by
  have harg : (0:ℚ) ≤ (a.start_bpm + a.end_bpm) / 2 * (a.duration / 60) := by positivity
  have hrr : rustRound ((a.start_bpm + a.end_bpm) / 2 * (a.duration / 60))
      = round ((a.start_bpm + a.end_bpm) / 2 * (a.duration / 60)) := if_pos harg
  have hnn : 0 ≤ rustRound ((a.start_bpm + a.end_bpm) / 2 * (a.duration / 60)) := by
    rw [hrr, round_eq]
    exact Int.floor_nonneg.mpr (by positivity)
  have htb' : totalBeats a
      = (rustRound ((a.start_bpm + a.end_bpm) / 2 * (a.duration / 60))).toNat := by
    unfold totalBeats
    exact min_eq_left hfit
  have hlast : ∀ b : ProgressiveArgs,
      lastPublished b (runProgressive b (fun _ => MetronomeState.Running) (fun _ => []))
        = some b.end_bpm := by
    intro b
    have h := (rampAux_running_stats b (totalBeats b) 0 b.start_bpm).2
    simp [lastPublished, runProgressive, h]
  have hdemo : totalBeats demoArgs = 90 := by
    norm_num [totalBeats, rustRound, demoArgs, u32Max, round_eq] <;> decide
  have hni : numIncrements demoArgs = 22 := by
    rw [numIncrements, hdemo]
    norm_num [demoArgs]
  refine ⟨?_, rfl, ?_, ?_, hlast a, hdemo, hni, ?_, hlast demoArgs⟩
  · rw [htb', Int.toNat_of_nonneg hnn]
    congr 1
    ring
  · intro h
    simp only [bpmIncrement, if_pos h]
  · intro h
    simp only [bpmIncrement, if_neg (by omega : ¬ 0 < numIncrements a)]
  · simp only [bpmIncrement, hni]
    norm_num [demoArgs, abs_lt]

/-- C1 witness: the formulas and the exact final publication instantiated at
the worked 60→120 configuration. -/
theorem ramp_plan_and_final_tempo_witness :
    (totalBeats demoArgs : ℤ)
      = rustRound ((demoArgs.start_bpm + demoArgs.end_bpm) / 2 * demoArgs.duration / 60)
    ∧ lastPublished demoArgs
        (runProgressive demoArgs (fun _ => MetronomeState.Running) (fun _ => []))
      = some (120 : ℚ) := by
  have h := ramp_plan_and_final_tempo demoArgs (by norm_num [demoArgs])
    (by norm_num [demoArgs]) (by norm_num [demoArgs]) (by norm_num [demoArgs])
    (by norm_num [demoArgs, rustRound, u32Max, round_eq])
  exact ⟨h.1, h.2.2.2.2.2.2.2.2⟩

/-- C3: during an unstopped ramp, an increment event at beat index `b`
happens exactly when `b + 1` is a positive multiple of `measures` strictly
below `total_beats`, and the value published then is `start_bpm` plus
`(b + 1) / measures` times the increment delta; in particular after the
`k`-th firing (at beat `k·measures − 1`) the store holds `start_bpm + k·δ`. -/
theorem ramp_increment_rule (a : ProgressiveArgs) (hm : 1 ≤ a.measures) :
    (∀ (b : ℕ) (v : ℚ),
        (b, v) ∈ (runProgressive a (fun _ => MetronomeState.Running)
            (fun _ => [])).events
          ↔ ((b + 1) % a.measures = 0 ∧ b + 1 < totalBeats a
              ∧ v = a.start_bpm + (((b + 1) / a.measures : ℕ) : ℚ) * bpmIncrement a))
    ∧ (∀ k : ℕ, 1 ≤ k → k * a.measures < totalBeats a →
        (k * a.measures - 1, a.start_bpm + (k : ℚ) * bpmIncrement a)
          ∈ (runProgressive a (fun _ => MetronomeState.Running)
              (fun _ => [])).events) := by
  have h0 : a.start_bpm + ((0 / a.measures : ℕ) : ℚ) * bpmIncrement a
      = a.start_bpm := by simp
  have hevents : (runProgressive a (fun _ => MetronomeState.Running)
        (fun _ => [])).events
      = (List.range' 0 (totalBeats a)).filterMap (fun b =>
          if (b + 1) % a.measures = 0 ∧ b + 1 < totalBeats a then
            some (b, a.start_bpm + (((b + 1) / a.measures : ℕ) : ℚ) * bpmIncrement a)
          else none) := by
    have h := rampAux_running_events a (totalBeats a) 0
    rw [h0] at h
    exact h
  have hiff : ∀ (b : ℕ) (v : ℚ),
      (b, v) ∈ (runProgressive a (fun _ => MetronomeState.Running)
          (fun _ => [])).events
        ↔ ((b + 1) % a.measures = 0 ∧ b + 1 < totalBeats a
            ∧ v = a.start_bpm + (((b + 1) / a.measures : ℕ) : ℚ) * bpmIncrement a) := by
    intro b v
    rw [hevents]
    constructor
    · intro hmem
      rcases List.mem_filterMap.mp hmem with ⟨x, hx, hfx⟩
      by_cases hcx : (x + 1) % a.measures = 0 ∧ x + 1 < totalBeats a
      · rw [if_pos hcx] at hfx
        have hinj := Option.some.inj hfx
        have hxb : x = b := congrArg Prod.fst hinj
        have hvv : a.start_bpm + (((x + 1) / a.measures : ℕ) : ℚ) * bpmIncrement a
            = v := congrArg Prod.snd hinj
        subst hxb
        exact ⟨hcx.1, hcx.2, hvv.symm⟩
      · rw [if_neg hcx] at hfx
        exact absurd hfx (by simp)
    · rintro ⟨h1, h2, h3⟩
      refine List.mem_filterMap.mpr ⟨b, ?_, ?_⟩
      · exact List.mem_range'_1.mpr ⟨Nat.zero_le b, by omega⟩
      · rw [if_pos ⟨h1, h2⟩, h3]
  refine ⟨hiff, ?_⟩
  intro k hk hkm
  have hmk : 1 ≤ k * a.measures := by
    have := Nat.mul_le_mul hk hm
    omega
  refine (hiff (k * a.measures - 1) _).mpr ⟨?_, ?_, ?_⟩
  · rw [show k * a.measures - 1 + 1 = k * a.measures from by omega]
    exact Nat.mul_mod_left k a.measures
  · rw [show k * a.measures - 1 + 1 = k * a.measures from by omega]
    exact hkm
  · rw [show k * a.measures - 1 + 1 = k * a.measures from by omega,
      Nat.mul_div_left k (by omega : 0 < a.measures)]

/-- C3 witness: in the worked scenario the first increment fires after beat
3 (the first full group of 4 beats) and publishes `start_bpm + 1·δ`. -/
theorem ramp_increment_rule_witness :
    1 * demoArgs.measures < totalBeats demoArgs
    ∧ (1 * demoArgs.measures - 1, demoArgs.start_bpm + (1 : ℚ) * bpmIncrement demoArgs)
        ∈ (runProgressive demoArgs (fun _ => MetronomeState.Running)
            (fun _ => [])).events := by
  have h4 : (1 : ℕ) * demoArgs.measures < totalBeats demoArgs := by
    norm_num [demoArgs, totalBeats, rustRound, u32Max, round_eq]
  exact ⟨h4, (ramp_increment_rule demoArgs (by norm_num [demoArgs])).2 1
    (le_refl 1) h4⟩

/-- C2 counterexample: in the worked configuration (90 ramp beats), a run
state reading Stopped from the very first beat aborts all ramp beats (zero
ticks) — yet the scheduler does reach the trailing publish step: the
`break` falls through to the final `*bpm = end_bpm` write, so the store ends
at `end_bpm`, refuting the claim that a mid-ramp stop avoids the completion
publish. -/
theorem ramp_stop_still_publishes_cex :
    0 < totalBeats demoArgs
    ∧ (runProgressive demoArgs (fun _ => MetronomeState.Stopped)
        (fun _ => [])).ticks = 0
    ∧ (runProgressive demoArgs (fun _ => MetronomeState.Stopped)
        (fun _ => [])).finalPub = true
    ∧ storeAfter demoArgs
        (runProgressive demoArgs (fun _ => MetronomeState.Stopped) (fun _ => []))
        demoArgs.start_bpm = demoArgs.end_bpm := by
  have h90 : totalBeats demoArgs = 90 := by
    norm_num [totalBeats, rustRound, demoArgs, u32Max, round_eq] <;> decide
  have hstats := rampAux_stop_stats demoArgs (fun _ => MetronomeState.Stopped)
    (fun _ => []) 0 rfl (fun b hb => absurd hb (Nat.not_lt_zero b))
    (fun b hb => absurd hb (Nat.not_lt_zero b))
    (totalBeats demoArgs) 0 demoArgs.start_bpm (le_refl 0) (by omega)
  refine ⟨by omega, hstats.1, hstats.2, ?_⟩
  simp [storeAfter, lastPublished, runProgressive, hstats.2]

/-- C2 (amended): the scheduler force-publishes `end_bpm` on ramp completion,
when `total_beats = 0` (a zero duration gives zero ramp beats and an
immediate publish, the steady phase then reading that tempo), and also when
Stopped is read at the top of a beat — that read plays no further ramp
beats and the steady loop performs zero iterations, but the trailing
publish still runs; only a Stopped read inside the pause spin returns
without the trailing publish. -/
theorem ramp_stop_and_zero_beats (a : ProgressiveArgs) :
    (a.duration = 0 → totalBeats a = 0)
    ∧ (totalBeats a = 0 →
        ∀ (top : ℕ → MetronomeState) (spin : ℕ → List MetronomeState),
        runProgressive a top spin = { events := [], ticks := 0, finalPub := true }
        ∧ ∀ s0 : ℚ, storeAfter a (runProgressive a top spin) s0 = a.end_bpm)
    ∧ (∀ (top : ℕ → MetronomeState) (spin : ℕ → List MetronomeState) (b0 : ℕ),
        b0 < totalBeats a → top b0 = MetronomeState.Stopped →
        (∀ b < b0, top b = MetronomeState.Running) → (∀ b < b0, spin b = []) →
        (runProgressive a top spin).ticks = b0
        ∧ (runProgressive a top spin).finalPub = true
        ∧ ∀ s0 : ℚ, storeAfter a (runProgressive a top spin) s0 = a.end_bpm)
    ∧ (∀ b0 : ℕ, b0 < totalBeats a →
        (runProgressive a (fun _ => MetronomeState.Running)
          (fun b => if b = b0 then [MetronomeState.Paused, MetronomeState.Stopped]
            else [])).ticks = b0 + 1
        ∧ (runProgressive a (fun _ => MetronomeState.Running)
          (fun b => if b = b0 then [MetronomeState.Paused, MetronomeState.Stopped]
            else [])).finalPub = false)
    ∧ (∀ fuel i : ℕ, constantTicks (fun _ => MetronomeState.Stopped) fuel i = 0) := by
  refine ⟨?_, ?_, ?_, ?_, constantTicks_stopped⟩
  · intro h0
    simp [totalBeats, rustRound, h0]
  · intro h top spin
    have hr : runProgressive a top spin
        = { events := [], ticks := 0, finalPub := true } := by
      rw [runProgressive, h]
      rfl
    refine ⟨hr, fun s0 => ?_⟩
    rw [hr]
    simp [storeAfter, lastPublished]
  · intro top spin b0 hb htop hrun hspin
    have hstats := rampAux_stop_stats a top spin b0 htop hrun hspin
      (totalBeats a) 0 a.start_bpm (Nat.zero_le b0) (by omega)
    refine ⟨hstats.1, hstats.2, fun s0 => ?_⟩
    simp [storeAfter, lastPublished, runProgressive, hstats.2]
  · intro b0 hb
    have hstats := rampAux_pause_stop_stats a b0 (totalBeats a) 0 a.start_bpm
      (Nat.zero_le b0) (by omega)
    exact ⟨hstats.1, hstats.2⟩

/-- C2 witness: in the worked configuration, a Stopped read at beat 0 plays
no ramp beats yet still force-publishes `end_bpm`; a Stopped read inside
the pause spin of beat 5 returns after 6 ticks without the trailing
publish; and the steady loop under a Stopped state performs zero ticks. -/
theorem ramp_stop_and_zero_beats_witness :
    ((runProgressive demoArgs (fun _ => MetronomeState.Stopped)
        (fun _ => [])).ticks = 0
      ∧ storeAfter demoArgs
          (runProgressive demoArgs (fun _ => MetronomeState.Stopped) (fun _ => []))
          demoArgs.start_bpm = demoArgs.end_bpm)
    ∧ (runProgressive demoArgs (fun _ => MetronomeState.Running)
        (fun b => if b = 5 then [MetronomeState.Paused, MetronomeState.Stopped]
          else [])).finalPub = false
    ∧ constantTicks (fun _ => MetronomeState.Stopped) 7 0 = 0 := by
  have h90 : totalBeats demoArgs = 90 := by
    norm_num [totalBeats, rustRound, demoArgs, u32Max, round_eq] <;> decide
  have h := ramp_stop_and_zero_beats demoArgs
  have hstop := h.2.2.1 (fun _ => MetronomeState.Stopped) (fun _ => []) 0
    (by omega) rfl (fun b hb => absurd hb (Nat.not_lt_zero b))
    (fun b hb => absurd hb (Nat.not_lt_zero b))
  have hpause := h.2.2.2.1 5 (by omega)
  exact ⟨⟨hstop.1, hstop.2.2 demoArgs.start_bpm⟩, hpause.2, h.2.2.2.2 7 0⟩
